import Mathlib

/-!
Shallow embedding of the world-engine ECS core: the archetype-based
component store, the `Search` object with its per-namespace archetype
cache (`cardinal/ecs/search.go`), the typed component accessors
(`cardinal/ecs/component/component.go`), and spec-derived models of the
subsystems whose implementation files are not part of the source tree
(storage iterator, nonce verifier, persona registry, EVM receipt store).
-/

namespace WorldEngine

abbrev ComponentID := Nat
abbrev EntityID := Nat
abbrev ArchetypeID := Nat
abbrev Value := Nat
abbrev NamespaceTag := String

/-- Modelled from the spec: `BadID` is the reserved sentinel entity ID
denoting "none" (`entity.ID` is a uint64 in the source). -/
def BadID : EntityID := 2 ^ 64 - 1

/-- The component filter grammar of `cardinal/ecs/filter` (the concrete
implementations are not under the source tree; the semantics below follows
spec 4.D: `Contains(cs)`: archetype set ⊇ cs; `Exact(cs)`: archetype set
== cs, order-independent; plus negation / conjunction / disjunction). -/
inductive ComponentFilter
  | contains (cs : List ComponentID)
  | exact (cs : List ComponentID)
  | notf (f : ComponentFilter)
  | andf (f g : ComponentFilter)
  | orf (f g : ComponentFilter)
deriving DecidableEq

/-- `a` is a subset of `b`, viewing the lists as sets of component IDs. -/
def subsetB (a b : List ComponentID) : Bool := a.all fun c => b.contains c

/-- Order-independent equality of component-ID sets. -/
def sameSet (a b : List ComponentID) : Bool := subsetB a b && subsetB b a

/-- Modelled from the spec: `MatchesComponents` of the filter package
(spec 4.D), evaluated at archetype granularity. -/
def MatchesComponents : ComponentFilter → List ComponentID → Bool
  | .contains cs, comps => subsetB cs comps
  | .exact cs, comps => sameSet cs comps
  | .notf f, comps => !(MatchesComponents f comps)
  | .andf f g, comps => MatchesComponents f comps && MatchesComponents g comps
  | .orf f g, comps => MatchesComponents f comps || MatchesComponents g comps

/-- Modelled from the spec: an archetype owns the unordered set of
component IDs present on its entities and the list of entity IDs by row
(spec 4.B; the storage package is not under the source tree). -/
structure Archetype where
  comps : List ComponentID
  entities : List EntityID
deriving DecidableEq

instance : Inhabited Archetype := ⟨⟨[], []⟩⟩

/-- Modelled from the spec: the world state the claims exercise —
registered components, archetypes in creation order, the dense
monotonically-assigned next entity ID, and per-(entity, component)
component values (spec 3, 4.B, 4.C). -/
structure World where
  ns : NamespaceTag
  registered : List ComponentID
  archetypes : List Archetype
  nextEntityID : Nat
  values : List ((EntityID × ComponentID) × Value)
deriving DecidableEq

/-- Entity is alive iff some archetype row holds it. -/
def isAlive (w : World) (e : EntityID) : Bool :=
  w.archetypes.any fun a => a.entities.contains e

/-- `components_of` (spec 4.C): the component set of the archetype whose
rows contain the entity. -/
def componentsOf (w : World) (e : EntityID) : Option (List ComponentID) :=
  (w.archetypes.find? fun a => a.entities.contains e).map Archetype.comps

def lookupValue (vs : List ((EntityID × ComponentID) × Value))
    (k : EntityID × ComponentID) : Option Value :=
  (vs.find? fun p => p.1 == k).map Prod.snd

def storeValue (vs : List ((EntityID × ComponentID) × Value))
    (k : EntityID × ComponentID) (v : Value) :
    List ((EntityID × ComponentID) × Value) :=
  (k, v) :: vs.filter fun p => p.1 != k

/-- Replace the element at index `i` (no-op when out of range). -/
def modifyAt {α : Type} (l : List α) (i : Nat) (f : α → α) : List α :=
  match l, i with
  | [], _ => []
  | a :: rest, 0 => f a :: rest
  | a :: rest, i + 1 => a :: modifyAt rest i f

/-- The index of the first archetype whose component set equals `cs`. -/
def findArchIdx (cs : List ComponentID) : List Archetype → Option Nat
  | [] => none
  | a :: rest =>
    if sameSet a.comps cs then some 0
    else (findArchIdx cs rest).map (· + 1)

/-- Modelled from the spec: `archetype_for(set_of_component_ids)` —
canonical (set) comparison, creating a fresh archetype ID on first
appearance (spec 4.B); archetype IDs are dense and never destroyed. -/
def getArchIDForComponents (w : World) (cs : List ComponentID) :
    ArchetypeID × World :=
  match findArchIdx cs w.archetypes with
  | some i => (i, w)
  | none =>
    (w.archetypes.length, { w with archetypes := w.archetypes ++ [⟨cs, []⟩] })

/-- Modelled from the spec: `CreateManyEntities` of the store manager —
allocates `num` dense fresh entity IDs and appends them as rows of the
archetype of the component set (spec 4.B, 4.C). -/
def createManyEntities (w : World) (num : Nat) (cs : List ComponentID) :
    List EntityID × World :=
  let ids := (List.range num).map fun i => w.nextEntityID + i
  let r := getArchIDForComponents w cs
  (ids,
    { r.2 with
      archetypes := modifyAt r.2.archetypes r.1
        (fun a => { a with entities := a.entities ++ ids })
      nextEntityID := w.nextEntityID + num })

inductive EcsError
  | cannotModifyStateWithReadOnlyContext
  | componentNotOnEntity
  | componentAlreadyOnEntity
  | unknownEntity
  | componentNotRegistered
deriving DecidableEq

/-- `ecs.ErrorCannotModifyStateWithReadOnlyContext` of the source. -/
def ErrorCannotModifyStateWithReadOnlyContext : EcsError :=
  .cannotModifyStateWithReadOnlyContext

/-- Modelled from the spec: `get_component(entity_id, component_id) ->
bytes | NotOnEntity` of the store (spec 4.B); components carry the
default value until set. -/
def getComponentForEntity (w : World) (e : EntityID) (c : ComponentID) :
    Except EcsError Value :=
  match componentsOf w e with
  | none => .error .unknownEntity
  | some cs =>
    if cs.contains c then .ok ((lookupValue w.values (e, c)).getD 0)
    else .error .componentNotOnEntity

/-- Modelled from the spec: `set_component(entity_id, component_id,
bytes) -> () | NotOnEntity` of the store (spec 4.B). -/
def setComponentForEntity (w : World) (e : EntityID) (c : ComponentID)
    (v : Value) : Except EcsError World :=
  match componentsOf w e with
  | none => .error .unknownEntity
  | some cs =>
    if cs.contains c then .ok { w with values := storeValue w.values (e, c) v }
    else .error .componentNotOnEntity

/-- Swap-with-last removal of row `r` (spec 4.B). -/
def swapRemove (l : List EntityID) (r : Nat) : List EntityID :=
  (l.set r (l.getLast?.getD 0)).dropLast

def removeEntityRows (a : Archetype) (e : EntityID) : Archetype :=
  match a.entities.findIdx? (fun x => x == e) with
  | none => a
  | some r => { a with entities := swapRemove a.entities r }

/-- Modelled from the spec: `destroy_entity` — swap-remove the entity's
row and drop its component values (spec 4.B). -/
def removeEntity (w : World) (e : EntityID) : World :=
  { w with
    archetypes := w.archetypes.map fun a => removeEntityRows a e
    values := w.values.filter fun p => p.1.1 != e }

/-- Modelled from the spec: `move_entity(entity_id, new_component_set)` —
swap-remove from the old archetype, append as a row of the new one,
preserve intersecting component values, drop removed ones (spec 4.B). -/
def moveEntity (w : World) (e : EntityID) (newComps : List ComponentID) :
    World :=
  let w1 : World :=
    { w with
      archetypes := w.archetypes.map fun a => removeEntityRows a e
      values := w.values.filter fun p => p.1.1 != e || newComps.contains p.1.2 }
  let r := getArchIDForComponents w1 newComps
  { r.2 with
    archetypes := modifyAt r.2.archetypes r.1
      (fun a => { a with entities := a.entities ++ [e] }) }

/-- Modelled from the spec: `AddComponentToEntity` of the store manager
(error kinds from spec 7). -/
def addComponentToEntity (w : World) (e : EntityID) (c : ComponentID) :
    Except EcsError World :=
  match componentsOf w e with
  | none => .error .unknownEntity
  | some cs =>
    if cs.contains c then .error .componentAlreadyOnEntity
    else .ok (moveEntity w e (cs ++ [c]))

/-- Modelled from the spec: `RemoveComponentFromEntity` of the store
manager (error kinds from spec 7). -/
def removeComponentFromEntity (w : World) (e : EntityID) (c : ComponentID) :
    Except EcsError World :=
  match componentsOf w e with
  | none => .error .unknownEntity
  | some cs =>
    if cs.contains c then .ok (moveEntity w e (cs.erase c))
    else .error .componentNotOnEntity

/-- The context flag of `ecs.WorldContext`: `IsReadOnly` gates every
mutation API of `component/component.go`. -/
structure WorldContext where
  readOnly : Bool
deriving DecidableEq

/-- A component passed to the typed accessors: its registered ID (the
name-to-ID resolution of the registry) and an initial value. -/
abbrev CompVal := ComponentID × Value

/-- Helper for `CreateMany`: set every listed component value on one
entity (the inner loop of `component.go` `CreateMany`). -/
def setComps (w : World) (id : EntityID) :
    List CompVal → Except EcsError World
  | [] => .ok w
  | (c, v) :: rest =>
    match setComponentForEntity w id c v with
    | .error e => .error e
    | .ok w1 => setComps w1 id rest

/-- Helper for `CreateMany`: the outer loop over the returned entity
IDs. -/
def setCompsAll (w : World) (components : List CompVal) :
    List EntityID → Except EcsError World
  | [] => .ok w
  | id :: rest =>
    match setComps w id components with
    | .error e => .error e
    | .ok w1 => setCompsAll w1 components rest

/-- Embedded from `component.go` `CreateMany`: rejects read-only
contexts, resolves each component against the registry, creates the
entities through the store manager, then sets each initial component
value. -/
def CreateMany (ctx : WorldContext) (w : World) (num : Nat)
    (components : List CompVal) :
    Except EcsError (List EntityID × World) :=
  if ctx.readOnly then .error ErrorCannotModifyStateWithReadOnlyContext
  else if components.all (fun c => w.registered.contains c.1) then
    let r := createManyEntities w num (components.map Prod.fst)
    match setCompsAll r.2 components r.1 with
    | .error e => .error e
    | .ok w2 => .ok (r.1, w2)
  else .error .componentNotRegistered

/-- Embedded from `component.go` `Create`: `CreateMany` with `num = 1`,
returning the single entity ID. -/
def Create (ctx : WorldContext) (w : World) (components : List CompVal) :
    Except EcsError (EntityID × World) :=
  match CreateMany ctx w 1 components with
  | .error e => .error e
  | .ok (ids, w1) => .ok (ids.headD 0, w1)

/-- Embedded from `component.go` `GetComponent`: resolves the component
against the registry and reads it through the store reader — there is no
read-only check on this path. -/
def GetComponent (_ctx : WorldContext) (w : World) (id : EntityID)
    (c : ComponentID) : Except EcsError Value :=
  if w.registered.contains c then getComponentForEntity w id c
  else .error .componentNotRegistered

/-- Embedded from `component.go` `SetComponent`: rejects read-only
contexts, then writes through the store manager. -/
def SetComponent (ctx : WorldContext) (w : World) (id : EntityID)
    (c : ComponentID) (v : Value) : Except EcsError World :=
  if ctx.readOnly then .error ErrorCannotModifyStateWithReadOnlyContext
  else if w.registered.contains c then setComponentForEntity w id c v
  else .error .componentNotRegistered

/-- Embedded from `component.go` `UpdateComponent`: rejects read-only
contexts, then `GetComponent` followed by `SetComponent` of the updated
value. -/
def UpdateComponent (ctx : WorldContext) (w : World) (id : EntityID)
    (c : ComponentID) (fn : Value → Value) : Except EcsError World :=
  if ctx.readOnly then .error ErrorCannotModifyStateWithReadOnlyContext
  else
    match GetComponent ctx w id c with
    | .error e => .error e
    | .ok v => SetComponent ctx w id c (fn v)

/-- Embedded from `component.go` `AddComponentTo`: rejects read-only
contexts, resolves the component, then moves the entity through the
store manager. -/
def AddComponentTo (ctx : WorldContext) (w : World) (id : EntityID)
    (c : ComponentID) : Except EcsError World :=
  if ctx.readOnly then .error ErrorCannotModifyStateWithReadOnlyContext
  else if w.registered.contains c then addComponentToEntity w id c
  else .error .componentNotRegistered

/-- Embedded from `component.go` `RemoveComponentFrom`: rejects
read-only contexts, resolves the component, then moves the entity
through the store manager. -/
def RemoveComponentFrom (ctx : WorldContext) (w : World) (id : EntityID)
    (c : ComponentID) : Except EcsError World :=
  if ctx.readOnly then .error ErrorCannotModifyStateWithReadOnlyContext
  else if w.registered.contains c then removeComponentFromEntity w id c
  else .error .componentNotRegistered

/-- Modelled from the spec: `remove(ctx, id)` — the explicit entity
removal of the mutation API (spec 6), blocked on read-only contexts
(spec 4.H) and destroying through the store (spec 4.B). -/
def Remove (ctx : WorldContext) (w : World) (id : EntityID) :
    Except EcsError World :=
  if ctx.readOnly then .error ErrorCannotModifyStateWithReadOnlyContext
  else if isAlive w id then .ok (removeEntity w id)
  else .error .unknownEntity

/-! ## The Search object (`cardinal/ecs/search.go`) -/

/-- The `cache` struct of `search.go`: the memoized matching archetype
IDs and the high-water-mark count of archetypes already examined. -/
structure SearchCache where
  archetypes : List ArchetypeID
  seen : Nat
deriving DecidableEq

/-- The `Search` struct of `search.go`: a filter plus a per-namespace
cache map. -/
structure Search where
  archMatches : List (NamespaceTag × SearchCache)
  filter : ComponentFilter
deriving DecidableEq

/-- `NewSearch` of `search.go`: empty cache map. -/
def NewSearch (f : ComponentFilter) : Search := ⟨[], f⟩

def getCache (q : Search) (ns : NamespaceTag) : SearchCache :=
  match q.archMatches.find? (fun p => p.1 == ns) with
  | some p => p.2
  | none => ⟨[], 0⟩

def setCache (q : Search) (ns : NamespaceTag) (c : SearchCache) : Search :=
  { q with archMatches := (ns, c) :: q.archMatches.filter fun p => p.1 != ns }

/-- Modelled from the spec: `SearchFrom(filter, seen)` of the store
manager — the archetypes with ID at least `seen` whose component set
matches the filter, in archetype-creation order (spec 4.D). -/
def searchFrom (w : World) (f : ComponentFilter) (seen : Nat) :
    List ArchetypeID :=
  ((List.range w.archetypes.length).drop seen).filter fun i =>
    MatchesComponents f (w.archetypes.getD i default).comps

/-- `ArchetypeCount` of the store manager. -/
def archetypeCount (w : World) : Nat := w.archetypes.length

/-- Embedded from `search.go` `evaluateSearch`: fetch (or initialize)
the namespace's cache, append the matches among archetypes created since
`cache.seen`, record the new archetype count, and return the accumulated
list together with the updated `Search`. -/
def evaluateSearch (q : Search) (ns : NamespaceTag) (w : World) :
    List ArchetypeID × Search :=
  let c := getCache q ns
  let c2 : SearchCache :=
    ⟨c.archetypes ++ searchFrom w q.filter c.seen, archetypeCount w⟩
  (c2.archetypes, setCache q ns c2)

/-- Evaluating the filter from scratch over all archetypes, in
archetype-creation order: the spec's description of what a `Search`
computes (spec 4.D), used as the refinement target. -/
def scratchEval (w : World) (f : ComponentFilter) : List ArchetypeID :=
  (List.range w.archetypes.length).filter fun i =>
    MatchesComponents f (w.archetypes.getD i default).comps

/-- The entities of the given archetypes, in archetype order then
ascending row order: the iteration order of spec 4.D. -/
def matchedEntities (w : World) (archIDs : List ArchetypeID) :
    List EntityID :=
  archIDs.flatMap fun a => (w.archetypes.getD a default).entities

/-- Modelled from the spec: the remove-safe forward iteration of an
`Each` pass (spec 4.B) — the pass works through the snapshot of entities
present when it starts (newly-created entities are not visited), and an
entity is visited only if it is still alive when its turn comes (removed
entities not yet visited are skipped; removed entities already visited
remain visited).  The callback threads an arbitrary closure state `σ`
and the world, and returns `false` to stop early, mirroring
`SearchCallBackFn`.  Returns the final closure state, the final world,
and the list of visited entities. -/
def eachLoop {σ : Type} (cb : σ → World → EntityID → σ × World × Bool) :
    σ → World → List EntityID → σ × World × List EntityID
  | s, w, [] => (s, w, [])
  | s, w, id :: rest =>
    if isAlive w id then
      let r := cb s w id
      if r.2.2 then
        let t := eachLoop cb r.1 r.2.1 rest
        (t.1, t.2.1, id :: t.2.2)
      else (r.1, r.2.1, [id])
    else eachLoop cb s w rest

/-- Embedded from `search.go` `Each` (with the iterator modelled from
the spec as in `eachLoop`): evaluate the search, snapshot the matching
entities, and run the callback over them (projection form). -/
def Each {σ : Type} (q : Search) (w : World)
    (cb : σ → World → EntityID → σ × World × Bool) (s : σ) :
    σ × World × List EntityID × Search :=
  let r := evaluateSearch q w.ns w
  let e := eachLoop cb s w (matchedEntities w r.1)
  (e.1, e.2.1, e.2.2, r.2)

/-- Embedded from `search.go` `Count`: the total number of entities of
the matching archetypes. -/
def Count (q : Search) (w : World) : Nat × Search :=
  let r := evaluateSearch q w.ns w
  ((r.1.map fun a => (w.archetypes.getD a default).entities.length).sum, r.2)

abbrev StoreError := String

/-- In-memory entity fetch: the store iteration that never errors. -/
def pureFetch (w : World) : ArchetypeID → Except StoreError (List EntityID) :=
  fun a => .ok (w.archetypes.getD a default).entities

/-- Embedded from `search.go` `First`'s iterator loop: no archetypes
left yields `BadID` with a nil error (the named `err` return is never
assigned on that path); a fetch error is returned; the first non-empty
archetype yields its first entity. -/
def firstLoop (fetch : ArchetypeID → Except StoreError (List EntityID)) :
    List ArchetypeID → Except StoreError EntityID
  | [] => .ok BadID
  | a :: rest =>
    match fetch a with
    | .error e => .error e
    | .ok [] => firstLoop fetch rest
    | .ok (e :: _) => .ok e

/-- Embedded from `search.go` `First`. -/
def First (q : Search) (w : World) : Except StoreError EntityID × Search :=
  let r := evaluateSearch q w.ns w
  (firstLoop (pureFetch w) r.1, r.2)

/-- Embedded from `search.go` `MustFirst`: panics — modelled as `none` —
exactly when `First` returns a non-nil error. -/
def MustFirst (q : Search) (w : World) : Option EntityID × Search :=
  match (First q w).1 with
  | .error _ => (none, (First q w).2)
  | .ok id => (some id, (First q w).2)

/-! ## Cache validity and reachability (for the refinement claim) -/

/-- `w'` is `w` after a (possibly empty) sequence of archetype creations:
archetypes are created lazily, appended in creation order and never
destroyed (spec 4.B). -/
def ExtendsW (w' w : World) : Prop :=
  ∃ t, w'.archetypes = w.archetypes ++ t

/-- The cache invariant of `evaluateSearch`: the memoized list is
exactly the scratch evaluation over the first `seen` archetypes. -/
def ValidCache (w : World) (f : ComponentFilter) (c : SearchCache) : Prop :=
  c.seen ≤ w.archetypes.length ∧
  c.archetypes = (List.range c.seen).filter fun i =>
    MatchesComponents f (w.archetypes.getD i default).comps

/-- The caches a `Search` can actually hold for a world: the fresh empty
cache, any reachable cache carried over to a world extended by newly
created archetypes, and the cache written back by `evaluateSearch`. -/
inductive CacheReachable (f : ComponentFilter) : World → SearchCache → Prop
  | fresh (w : World) : CacheReachable f w ⟨[], 0⟩
  | extend {w w' : World} {c : SearchCache} :
      CacheReachable f w c → ExtendsW w' w → CacheReachable f w' c
  | eval {w : World} {c : SearchCache} :
      CacheReachable f w c →
      CacheReachable f w ⟨c.archetypes ++ searchFrom w f c.seen, archetypeCount w⟩

theorem getD_of_extends {w w' : World} (h : ExtendsW w' w) {i : Nat}
    (hi : i < w.archetypes.length) :
    w'.archetypes.getD i default = w.archetypes.getD i default := by
  obtain ⟨t, ht⟩ := h
  simp [ht, List.getD_eq_getElem?_getD, List.getElem?_append_left hi]

theorem range_split {seen n : Nat} (h : seen ≤ n) :
    List.range n = List.range seen ++ (List.range n).drop seen := by
  conv_lhs => rw [← List.take_append_drop seen (List.range n)]
  rw [List.take_range]
  simp [Nat.min_eq_left h]

/-- The central refinement step: a valid cache makes the incremental
evaluation agree with the from-scratch evaluation. -/
theorem validCache_eval (w : World) (f : ComponentFilter) (c : SearchCache)
    (h : ValidCache w f c) :
    c.archetypes ++ searchFrom w f c.seen = scratchEval w f := by
  obtain ⟨hle, harch⟩ := h
  rw [harch, scratchEval, searchFrom]
  conv_rhs => rw [range_split hle]
  rw [List.filter_append]

theorem validCache_fresh (w : World) (f : ComponentFilter) :
    ValidCache w f ⟨[], 0⟩ := by
  constructor
  · exact Nat.zero_le _
  · simp

theorem validCache_extend {w w' : World} {f : ComponentFilter}
    {c : SearchCache} (h : ValidCache w f c) (hext : ExtendsW w' w) :
    ValidCache w' f c := by
  obtain ⟨hle, harch⟩ := h
  obtain ⟨t, ht⟩ := hext
  constructor
  · rw [ht, List.length_append]
    omega
  · rw [harch]
    apply List.filter_congr
    intro i hi
    rw [List.mem_range] at hi
    rw [getD_of_extends ⟨t, ht⟩ (Nat.lt_of_lt_of_le hi hle)]

theorem validCache_after (w : World) (f : ComponentFilter) (c : SearchCache)
    (h : ValidCache w f c) :
    ValidCache w f ⟨c.archetypes ++ searchFrom w f c.seen, archetypeCount w⟩ := by
  constructor
  · exact Nat.le_refl _
  · rw [validCache_eval w f c h]
    rfl

theorem cacheReachable_valid {f : ComponentFilter} {w : World}
    {c : SearchCache} (h : CacheReachable f w c) : ValidCache w f c := by
  induction h with
  | fresh w => exact validCache_fresh w f
  | extend _ hext ih => exact validCache_extend ih hext
  | eval _ ih => exact validCache_after _ _ _ ih

theorem getCache_setCache (q : Search) (ns : NamespaceTag)
    (c : SearchCache) : getCache (setCache q ns c) ns = c := by
  simp [getCache, setCache]

theorem getCache_newSearch (f : ComponentFilter) (ns : NamespaceTag) :
    getCache (NewSearch f) ns = ⟨[], 0⟩ := by
  simp [getCache, NewSearch]

theorem evaluateSearch_eq_scratch {q : Search} {ns : NamespaceTag}
    {w : World} (h : CacheReachable q.filter w (getCache q ns)) :
    (evaluateSearch q ns w).1 = scratchEval w q.filter :=
  validCache_eval w q.filter (getCache q ns) (cacheReachable_valid h)

theorem newSearch_reachable (f : ComponentFilter) (ns : NamespaceTag)
    (w : World) : CacheReachable f w (getCache (NewSearch f) ns) := by
  rw [getCache_newSearch]
  exact .fresh w

theorem newSearch_eval_eq_scratch (f : ComponentFilter) (ns : NamespaceTag)
    (w : World) :
    (evaluateSearch (NewSearch f) ns w).1 = scratchEval w f :=
  evaluateSearch_eq_scratch (newSearch_reachable f ns w)

/-- **C5.** Search cache refinement: with any reachable cache state (any
sequence of archetype creations and re-evaluations), the cached
incremental evaluation returns exactly the from-scratch evaluation of
the filter over all archetypes in creation order, the written-back cache
is again reachable (also for any later world extension), and `Each`,
`Count` and `First` on the reused `Search` agree with a fresh one. -/
theorem c5_search_cache_refines_scratch_evaluation :
    ∀ (q : Search) (ns : NamespaceTag) (w : World),
      CacheReachable q.filter w (getCache q ns) →
      (evaluateSearch q ns w).1 = scratchEval w q.filter
      ∧ (evaluateSearch q ns w).1 = (evaluateSearch (NewSearch q.filter) ns w).1
      ∧ (∀ w', ExtendsW w' w →
          CacheReachable q.filter w' (getCache (evaluateSearch q ns w).2 ns))
      ∧ (ns = w.ns →
          (Count q w).1 = (Count (NewSearch q.filter) w).1
          ∧ (First q w).1 = (First (NewSearch q.filter) w).1
          ∧ ∀ (σ : Type) (cb : σ → World → EntityID → σ × World × Bool) (s : σ),
              (Each q w cb s).1 = (Each (NewSearch q.filter) w cb s).1
              ∧ (Each q w cb s).2.1 = (Each (NewSearch q.filter) w cb s).2.1
              ∧ (Each q w cb s).2.2.1 = (Each (NewSearch q.filter) w cb s).2.2.1) := by
  intro q ns w h
  have h1 : (evaluateSearch q ns w).1 = scratchEval w q.filter :=
    evaluateSearch_eq_scratch h
  have hfresh : (evaluateSearch (NewSearch q.filter) ns w).1 =
      scratchEval w q.filter := newSearch_eval_eq_scratch q.filter ns w
  have hset : getCache (evaluateSearch q ns w).2 ns =
      ⟨(getCache q ns).archetypes ++ searchFrom w q.filter (getCache q ns).seen,
        archetypeCount w⟩ := by
    simp [evaluateSearch, getCache_setCache]
  refine ⟨h1, h1.trans hfresh.symm, ?_, ?_⟩
  · intro w' hext
    rw [hset]
    exact .extend (.eval h) hext
  · intro hns
    subst hns
    have h1f : (evaluateSearch q w.ns w).1 =
        (evaluateSearch (NewSearch q.filter) w.ns w).1 := h1.trans hfresh.symm
    refine ⟨?_, ?_, ?_⟩
    · simp only [Count, h1f]
    · simp only [First, h1f]
    · intro σ cb s
      refine ⟨?_, ?_, ?_⟩ <;> simp only [Each, h1f]

/-- Witness for C5 at a concrete reused search: two entities in one
archetype, a fresh search evaluated once, then reused after a second
archetype is created. -/
theorem c5_search_cache_witness :
    CacheReachable (ComponentFilter.contains [0])
      (⟨"ns", [0], [⟨[0], [0, 1]⟩, ⟨[1], [2]⟩], 3, []⟩ : World)
      (getCache
        ((evaluateSearch (NewSearch (.contains [0])) "ns"
          ⟨"ns", [0], [⟨[0], [0, 1]⟩], 2, []⟩).2) "ns")
    ∧ (evaluateSearch
        ((evaluateSearch (NewSearch (.contains [0])) "ns"
          ⟨"ns", [0], [⟨[0], [0, 1]⟩], 2, []⟩).2) "ns"
        ⟨"ns", [0], [⟨[0], [0, 1]⟩, ⟨[1], [2]⟩], 3, []⟩).1 =
      scratchEval ⟨"ns", [0], [⟨[0], [0, 1]⟩, ⟨[1], [2]⟩], 3, []⟩
        (.contains [0]) := by
  have hreach : CacheReachable (ComponentFilter.contains [0])
      (⟨"ns", [0], [⟨[0], [0, 1]⟩, ⟨[1], [2]⟩], 3, []⟩ : World)
      (getCache
        ((evaluateSearch (NewSearch (.contains [0])) "ns"
          ⟨"ns", [0], [⟨[0], [0, 1]⟩], 2, []⟩).2) "ns") := by
    have hbase := (c5_search_cache_refines_scratch_evaluation
      (NewSearch (.contains [0])) "ns" ⟨"ns", [0], [⟨[0], [0, 1]⟩], 2, []⟩
      (newSearch_reachable _ _ _)).2.2.1
      ⟨"ns", [0], [⟨[0], [0, 1]⟩, ⟨[1], [2]⟩], 3, []⟩ ⟨[⟨[1], [2]⟩], rfl⟩
    exact hbase
  refine ⟨hreach, ?_⟩
  exact (c5_search_cache_refines_scratch_evaluation _ "ns" _ hreach).1

/-! ## Filter semantics (C4) -/

theorem subsetB_iff (a b : List ComponentID) :
    subsetB a b = true ↔ ∀ c ∈ a, c ∈ b := by
  simp [subsetB]

theorem sameSet_iff (a b : List ComponentID) :
    sameSet a b = true ↔ ∀ c, c ∈ a ↔ c ∈ b := by
  simp only [sameSet, Bool.and_eq_true, subsetB_iff]
  constructor
  · intro h c
    exact ⟨h.1 c, h.2 c⟩
  · intro h
    exact ⟨fun c hc => (h c).mp hc, fun c hc => (h c).mpr hc⟩

/-- The concrete C4 scenario: components alpha=0, beta=1, gamma=2; 50
entities holding exactly `{alpha, beta}` and 20 holding exactly
`{alpha, beta, gamma}`. -/
def c4World : World :=
  let w0 : World := ⟨"test", [0, 1, 2], [], 0, []⟩
  let wA := ((CreateMany ⟨false⟩ w0 50 [(0, 5), (1, 6)]).toOption.getD
    ([], w0)).2
  ((CreateMany ⟨false⟩ wA 20 [(0, 5), (1, 6), (2, 7)]).toOption.getD
    ([], wA)).2

/-- A counting callback for `Each` (the visit counter of the tests). -/
def countCb : Nat → World → EntityID → Nat × World × Bool :=
  fun n w _ => (n + 1, w, true)

/-- **C4.** Filter semantics at archetype granularity: `Exact(cs)`
matches a component set iff it equals `cs` as a set — so any reordering
of `cs` matches the same sets — and `Contains(cs)` matches iff the set
contains every component of `cs`; concretely, with 50 entities holding
exactly `{alpha, beta}` and 20 holding `{alpha, beta, gamma}`, `Each`
over `Exact({alpha, beta})` visits 50 entities, over `Contains({alpha})`
visits 70, and over `Contains({gamma})` visits 20. -/
theorem c4_filter_semantics :
    (∀ cs comps, MatchesComponents (.exact cs) comps = true ↔
      ∀ c, c ∈ cs ↔ c ∈ comps)
    ∧ (∀ cs cs2 comps, sameSet cs cs2 = true →
        MatchesComponents (.exact cs) comps =
          MatchesComponents (.exact cs2) comps)
    ∧ (∀ cs comps, MatchesComponents (.contains cs) comps = true ↔
        ∀ c ∈ cs, c ∈ comps)
    ∧ (Each (NewSearch (.exact [0, 1])) c4World countCb 0).1 = 50
    ∧ (Each (NewSearch (.exact [1, 0])) c4World countCb 0).1 = 50
    ∧ (Each (NewSearch (.contains [0])) c4World countCb 0).1 = 70
    ∧ (Each (NewSearch (.contains [2])) c4World countCb 0).1 = 20 := by
  refine ⟨?_, ?_, ?_, by decide, by decide, by decide, by decide⟩
  · intro cs comps
    exact sameSet_iff cs comps
  · intro cs cs2 comps hset0
    have hset := (sameSet_iff cs cs2).mp hset0
    have h1 := sameSet_iff cs comps
    have h2 := sameSet_iff cs2 comps
    simp only [MatchesComponents]
    by_cases hcs : sameSet cs comps = true
    · rw [hcs, Eq.comm]
      rw [h2]
      intro c
      rw [← hset c]
      exact (h1.mp hcs) c
    · have hcs2 : ¬ sameSet cs2 comps = true := by
        rw [h2]
        intro hall
        exact hcs (h1.mpr fun c => (hset c).trans (hall c))
      rw [Bool.not_eq_true] at hcs hcs2
      rw [hcs, hcs2]
  · intro cs comps
    exact subsetB_iff cs comps

/-- Witness for C4's order-independence conjunct at a concrete
reordering. -/
theorem c4_filter_semantics_witness :
    MatchesComponents (.exact [0, 1]) [1, 0, 1] =
      MatchesComponents (.exact [1, 0]) [1, 0, 1] :=
  c4_filter_semantics.2.1 [0, 1] [1, 0] [1, 0, 1] (by decide)

/-! ## First / MustFirst -/

theorem firstLoop_pure (w : World) (l : List ArchetypeID) :
    firstLoop (pureFetch w) l = .ok ((matchedEntities w l).headD BadID) := by
  induction l with
  | nil => rfl
  | cons a rest ih =>
    simp only [firstLoop, pureFetch, matchedEntities, List.flatMap_cons]
    cases hents : (w.archetypes.getD a default).entities with
    | nil =>
      simpa [matchedEntities] using ih
    | cons e es => rfl

/-- **C9.** `First` returns the `BadID` sentinel when no entity matches
the search, and otherwise the first matching entity in
archetype-creation then ascending-row order (the head of the
spec-ordered matched-entity list). -/
theorem c9_first_sentinel_or_head (q : Search) (w : World)
    (h : CacheReachable q.filter w (getCache q w.ns)) :
    (matchedEntities w (scratchEval w q.filter) = [] →
      (First q w).1 = .ok BadID)
    ∧ ∀ e rest, matchedEntities w (scratchEval w q.filter) = e :: rest →
      (First q w).1 = .ok e := by
  have h1 : (evaluateSearch q w.ns w).1 = scratchEval w q.filter :=
    evaluateSearch_eq_scratch h
  have hfl : (First q w).1 =
      .ok ((matchedEntities w (scratchEval w q.filter)).headD BadID) := by
    simp only [First, h1, firstLoop_pure]
  constructor
  · intro hempty
    rw [hfl, hempty]
    rfl
  · intro e rest hcons
    rw [hfl, hcons]
    rfl

/-- Witness for C9: a world where nothing matches yields `BadID`, and a
world with one match yields that entity. -/
theorem c9_first_sentinel_witness :
    (First (NewSearch (.contains [0])) ⟨"ns", [0], [], 0, []⟩).1 = .ok BadID
    ∧ (First (NewSearch (.contains [0]))
        ⟨"ns", [0], [⟨[0], [7, 8]⟩], 9, []⟩).1 = .ok 7 := by
  constructor
  · exact (c9_first_sentinel_or_head (NewSearch (.contains [0]))
      ⟨"ns", [0], [], 0, []⟩ (newSearch_reachable _ _ _)).1 (by decide)
  · exact (c9_first_sentinel_or_head (NewSearch (.contains [0]))
      ⟨"ns", [0], [⟨[0], [7, 8]⟩], 9, []⟩ (newSearch_reachable _ _ _)).2 7 [8]
      (by decide)

/-- **C10.** With the in-memory store (iteration cannot error), `First`
always returns a nil error — in particular `.ok BadID` on an empty
search — so `MustFirst`, whose panic branch fires only on a non-nil
error, never panics (modelled: never returns `none`); and the loop of
`First` produces an error only when some underlying fetch errors. -/
theorem c10_mustfirst_never_panics (q : Search) (w : World) :
    ((MustFirst q w).1 =
      some ((matchedEntities w (evaluateSearch q w.ns w).1).headD BadID))
    ∧ (CacheReachable q.filter w (getCache q w.ns) →
        matchedEntities w (scratchEval w q.filter) = [] →
        (First q w).1 = .ok BadID ∧ (MustFirst q w).1 = some BadID)
    ∧ (∀ (fetch : ArchetypeID → Except StoreError (List EntityID))
        (l : List ArchetypeID),
        (∀ a ∈ l, (fetch a).isOk = true) → (firstLoop fetch l).isOk = true) := by
  have hfl : (First q w).1 =
      .ok ((matchedEntities w (evaluateSearch q w.ns w).1).headD BadID) := by
    simp only [First, firstLoop_pure]
  refine ⟨?_, ?_, ?_⟩
  · simp only [MustFirst, hfl]
  · intro h hempty
    have h1 : (evaluateSearch q w.ns w).1 = scratchEval w q.filter :=
      evaluateSearch_eq_scratch h
    have hbad : (First q w).1 = .ok BadID := by
      rw [hfl, h1, hempty]
      rfl
    refine ⟨hbad, ?_⟩
    simp only [MustFirst, hbad]
  · intro fetch l hok
    induction l with
    | nil => rfl
    | cons a rest ih =>
      have ha := hok a (List.mem_cons_self a rest)
      simp only [firstLoop]
      cases hfa : fetch a with
      | error e => rw [hfa] at ha; simp [Except.isOk, Except.toBool] at ha
      | ok ents =>
        cases ents with
        | nil => exact ih fun b hb => hok b (List.mem_cons_of_mem a hb)
        | cons e es => rfl

/-- **C6.** Every mutation API called with a read-only context returns
the `ReadOnlyContext` error — and, the call failing before touching the
store, the world passed in is left unchanged — while `GetComponent`
(which has no read-only gate) still succeeds for a component present on
the entity. -/
theorem c6_read_only_context_blocks_mutations (ctx : WorldContext)
    (w : World) (n : Nat) (comps : List CompVal) (id : EntityID)
    (c : ComponentID) (v : Value) (fn : Value → Value)
    (hro : ctx.readOnly = true) :
    CreateMany ctx w n comps = .error ErrorCannotModifyStateWithReadOnlyContext
    ∧ Create ctx w comps = .error ErrorCannotModifyStateWithReadOnlyContext
    ∧ SetComponent ctx w id c v =
        .error ErrorCannotModifyStateWithReadOnlyContext
    ∧ UpdateComponent ctx w id c fn =
        .error ErrorCannotModifyStateWithReadOnlyContext
    ∧ AddComponentTo ctx w id c =
        .error ErrorCannotModifyStateWithReadOnlyContext
    ∧ RemoveComponentFrom ctx w id c =
        .error ErrorCannotModifyStateWithReadOnlyContext
    ∧ Remove ctx w id = .error ErrorCannotModifyStateWithReadOnlyContext
    ∧ (∀ cs, w.registered.contains c = true → componentsOf w id = some cs →
        cs.contains c = true → ∃ val, GetComponent ctx w id c = .ok val) := by
  refine ⟨?_, ?_, ?_, ?_, ?_, ?_, ?_, ?_⟩
  · simp [CreateMany, hro]
  · simp [Create, CreateMany, hro]
  · simp [SetComponent, hro]
  · simp [UpdateComponent, hro]
  · simp [AddComponentTo, hro]
  · simp [RemoveComponentFrom, hro]
  · simp [Remove, hro]
  · intro cs hreg hcomp hc
    simp at hreg hc
    exact ⟨(lookupValue w.values (id, c)).getD 0,
      by simp [GetComponent, getComponentForEntity, hcomp, hreg, hc]⟩

/-- Witness for C6 on a concrete read-only context and a one-entity
world carrying component 0. -/
theorem c6_read_only_context_witness :
    SetComponent ⟨true⟩ ⟨"ns", [0], [⟨[0], [0]⟩], 1, [((0, 0), 42)]⟩ 0 0 5 =
      .error ErrorCannotModifyStateWithReadOnlyContext
    ∧ ∃ val, GetComponent ⟨true⟩ ⟨"ns", [0], [⟨[0], [0]⟩], 1, [((0, 0), 42)]⟩
        0 0 = .ok val := by
  have h := c6_read_only_context_blocks_mutations ⟨true⟩
    ⟨"ns", [0], [⟨[0], [0]⟩], 1, [((0, 0), 42)]⟩ 1 [(0, 5)] 0 0 5 id rfl
  exact ⟨h.2.2.1, h.2.2.2.2.2.2.2 [0] (by decide) (by decide) (by decide)⟩

/-! ## Remove-safe forward iteration (C1) -/

theorem eachLoop_visited_sublist {σ : Type}
    (cb : σ → World → EntityID → σ × World × Bool) :
    ∀ (l : List EntityID) (s : σ) (w : World),
      (eachLoop cb s w l).2.2.Sublist l := by
  intro l
  induction l with
  | nil =>
    intro s w
    simp [eachLoop]
  | cons id rest ih =>
    intro s w
    simp only [eachLoop]
    by_cases ha : isAlive w id
    · rw [if_pos ha]
      by_cases hcont : (cb s w id).2.2
      · simp only [hcont, if_true]
        exact (ih _ _).cons₂ id
      · simp only [hcont, if_false]
        exact (List.nil_sublist rest).cons₂ id
    · rw [if_neg ha]
      exact (ih s w).cons id

theorem sublist_flatMap {α β : Type} {l1 l2 : List α}
    (h : l1.Sublist l2) (g : α → List β) :
    (l1.flatMap g).Sublist (l2.flatMap g) := by
  induction h with
  | slnil => simp
  | cons a _ ih =>
    rw [List.flatMap_cons]
    exact ih.trans (List.sublist_append_right _ _)
  | cons₂ a _ ih =>
    rw [List.flatMap_cons, List.flatMap_cons]
    exact ih.append_left _

theorem flatMap_getD_range {α β : Type} (l : List α) (g : α → List β)
    (d : α) :
    (List.range l.length).flatMap (fun i => g (l.getD i d)) = l.flatMap g := by
  induction l with
  | nil => rfl
  | cons a t ih =>
    rw [List.length_cons, List.range_succ_eq_map, List.flatMap_cons,
      List.flatMap_map, List.flatMap_cons]
    simp only [List.getD_cons_zero, List.getD_cons_succ]
    rw [ih]

/-- The snapshot of a scratch-evaluated search is a sublist of the
concatenation of all archetype rows. -/
theorem matched_scratch_sublist (w : World) (f : ComponentFilter) :
    (matchedEntities w (scratchEval w f)).Sublist
      (w.archetypes.flatMap Archetype.entities) := by
  have h1 : (scratchEval w f).Sublist (List.range w.archetypes.length) :=
    List.filter_sublist _
  have h2 := sublist_flatMap h1 fun i => (w.archetypes.getD i default).entities
  rw [flatMap_getD_range w.archetypes (fun a => a.entities) default] at h2
  exact h2

theorem eachLoop_append {σ : Type}
    (cb : σ → World → EntityID → σ × World × Bool)
    (hc : ∀ (s : σ) (w : World) (id : EntityID), (cb s w id).2.2 = true) :
    ∀ (l1 l2 : List EntityID) (s : σ) (w : World),
      eachLoop cb s w (l1 ++ l2) =
        ((eachLoop cb (eachLoop cb s w l1).1 (eachLoop cb s w l1).2.1 l2).1,
         (eachLoop cb (eachLoop cb s w l1).1 (eachLoop cb s w l1).2.1 l2).2.1,
         (eachLoop cb s w l1).2.2 ++
           (eachLoop cb (eachLoop cb s w l1).1
             (eachLoop cb s w l1).2.1 l2).2.2) := by
  intro l1
  induction l1 with
  | nil =>
    intro l2 s w
    simp [eachLoop]
  | cons id rest ih =>
    intro l2 s w
    simp only [List.cons_append, eachLoop]
    by_cases ha : isAlive w id
    · simp only [if_pos ha, hc, if_true, List.append_eq, ih]
      simp
    · simp only [if_neg ha, List.append_eq, ih]

/-- The fate of one slot of the snapshot: with an always-continue
callback, the entity of a slot is visited exactly when it is still alive
once the pass reaches it. -/
theorem eachLoop_slot {σ : Type}
    (cb : σ → World → EntityID → σ × World × Bool)
    (hc : ∀ (s : σ) (w : World) (id : EntityID), (cb s w id).2.2 = true)
    (s : σ) (w : World) (l1 : List EntityID) (id : EntityID)
    (l2 : List EntityID) :
    (eachLoop cb s w (l1 ++ id :: l2)).2.2 =
      (eachLoop cb s w l1).2.2 ++
        (if isAlive (eachLoop cb s w l1).2.1 id then
          id :: (eachLoop cb
            (cb (eachLoop cb s w l1).1 (eachLoop cb s w l1).2.1 id).1
            (cb (eachLoop cb s w l1).1 (eachLoop cb s w l1).2.1 id).2.1
            l2).2.2
        else
          (eachLoop cb (eachLoop cb s w l1).1
            (eachLoop cb s w l1).2.1 l2).2.2) := by
  rw [eachLoop_append cb hc l1 (id :: l2) s w]
  simp only [eachLoop]
  by_cases ha : isAlive (eachLoop cb s w l1).2.1 id
  · simp only [if_pos ha, hc, if_true]
  · simp only [if_neg ha]

/-- The C1 scenario, first step: a world with the `Count` component
(ID 0) registered, 10 entities created with it. -/
def c1w1 : World :=
  ((CreateMany ⟨false⟩ ⟨"test", [0], [], 0, []⟩ 10 [(0, 0)]).toOption.getD
    ([], ⟨"test", [0], [], 0, []⟩)).2

/-- Pre-populate every entity's `Count` with its own ID (the test's
first `Each` pass). -/
def c1setCb : Unit → World → EntityID → Unit × World × Bool :=
  fun _ w id => ((), (SetComponent ⟨false⟩ w id 0 id).toOption.getD w, true)

def c1pass1 : Unit × World × List EntityID × Search :=
  Each (NewSearch (.contains [0])) c1w1 c1setCb ()

/-- Remove the entity on every even-numbered visit (the test's second
`Each` pass; the closure state is the visit counter `itr`). -/
def c1removeCb : Nat → World → EntityID → Nat × World × Bool :=
  fun itr w id =>
    (itr + 1,
     if itr % 2 == 0 then (Remove ⟨false⟩ w id).toOption.getD w else w,
     true)

def c1pass2 : Nat × World × List EntityID × Search :=
  Each c1pass1.2.2.2 c1pass1.2.1 c1removeCb 0

/-- Collect the remaining `Count` values (the test's third `Each`
pass). -/
def c1collectCb : List Value → World → EntityID → List Value × World × Bool :=
  fun acc w id =>
    (acc ++ [(GetComponent ⟨false⟩ w id 0).toOption.getD 999], w, true)

def c1pass3 : List Value × World × List EntityID × Search :=
  Each c1pass2.2.2.2 c1pass2.2.1 c1collectCb []

/-- **C1.** Remove-safe forward iteration: a pass visits only entities
of its start-of-pass snapshot (each at most once when the archetype rows
are duplicate-free), an entity no longer alive when its slot is reached
is skipped, an entity alive when its slot is reached is visited and
stays visited whatever the callback later removes; concretely, creating
10 entities holding their own ID in `Count` and removing the entity on
every even-numbered visit yields exactly 10 callback invocations, and
afterwards exactly the 5 entities with odd values 1,3,5,7,9 remain. -/
theorem c1_remove_safe_forward_iteration :
    (∀ (σ : Type) (cb : σ → World → EntityID → σ × World × Bool) (s : σ)
        (w : World) (l : List EntityID),
        (eachLoop cb s w l).2.2.Sublist l)
    ∧ (∀ (σ : Type) (cb : σ → World → EntityID → σ × World × Bool) (s : σ)
        (q : Search) (w : World),
        (w.archetypes.flatMap Archetype.entities).Nodup →
        CacheReachable q.filter w (getCache q w.ns) →
        (Each q w cb s).2.2.1.Nodup)
    ∧ (∀ (σ : Type) (cb : σ → World → EntityID → σ × World × Bool),
        (∀ (s : σ) (w : World) (id : EntityID), (cb s w id).2.2 = true) →
        ∀ (s : σ) (w : World) (l1 : List EntityID) (id : EntityID)
          (l2 : List EntityID),
          (isAlive (eachLoop cb s w l1).2.1 id = false →
            (eachLoop cb s w (l1 ++ id :: l2)).2.2 =
              (eachLoop cb s w l1).2.2 ++
                (eachLoop cb (eachLoop cb s w l1).1
                  (eachLoop cb s w l1).2.1 l2).2.2)
          ∧ (isAlive (eachLoop cb s w l1).2.1 id = true →
              id ∈ (eachLoop cb s w (l1 ++ id :: l2)).2.2))
    ∧ (CreateMany ⟨false⟩ (⟨"test", [0], [], 0, []⟩ : World) 10
        [(0, 0)]).isOk = true
    ∧ c1pass2.1 = 10
    ∧ c1pass2.2.2.1 = [0, 1, 2, 3, 4, 5, 6, 7, 8, 9]
    ∧ (c1pass2.2.1.archetypes.flatMap Archetype.entities).length = 5
    ∧ List.Perm c1pass3.1 [1, 3, 5, 7, 9] := by
  refine ⟨?_, ?_, ?_, by decide, by decide, by decide, by decide, by decide⟩
  · intro σ cb s w l
    exact eachLoop_visited_sublist cb l s w
  · intro σ cb s q w hnd hreach
    have h1 : (evaluateSearch q w.ns w).1 = scratchEval w q.filter :=
      evaluateSearch_eq_scratch hreach
    have hsub : (Each q w cb s).2.2.1.Sublist
        (matchedEntities w (scratchEval w q.filter)) := by
      simp only [Each, h1]
      exact eachLoop_visited_sublist cb _ s w
    exact (hsub.trans (matched_scratch_sublist w q.filter)).nodup hnd
  · intro σ cb hc s w l1 id l2
    constructor
    · intro hdead
      rw [eachLoop_slot cb hc s w l1 id l2, hdead]
      simp
    · intro halive
      rw [eachLoop_slot cb hc s w l1 id l2, halive]
      simp

/-- Witness for C1's quantified conjuncts at concrete inputs: the
visited list of a pass is a sublist of the snapshot and duplicate-free,
and an entity dead at its slot is skipped while a live one is visited. -/
theorem c1_remove_safe_witness :
    (Each (NewSearch (.contains [0])) c1w1 c1removeCb 0).2.2.1.Nodup
    ∧ (eachLoop c1removeCb 0 c1w1 ([] ++ 99 :: [3])).2.2 =
        (eachLoop c1removeCb 0 c1w1 []).2.2 ++
          (eachLoop c1removeCb (eachLoop c1removeCb 0 c1w1 []).1
            (eachLoop c1removeCb 0 c1w1 []).2.1 [3]).2.2
    ∧ 3 ∈ (eachLoop c1removeCb 0 c1w1 ([] ++ 3 :: [4])).2.2 := by
  have h := c1_remove_safe_forward_iteration
  refine ⟨?_, ?_, ?_⟩
  · exact h.2.1 Nat c1removeCb 0 (NewSearch (.contains [0])) c1w1
      (by decide) (newSearch_reachable _ _ _)
  · exact (h.2.2.1 Nat c1removeCb (fun _ _ _ => rfl) 0 c1w1 [] 99 [3]).1
      (by decide)
  · exact (h.2.2.1 Nat c1removeCb (fun _ _ _ => rfl) 0 c1w1 [] 3 [4]).2
      (by decide)

/-- Witness for C10: on an empty search `MustFirst` returns `BadID`
without panicking. -/
theorem c10_mustfirst_witness :
    (First (NewSearch (.contains [3])) ⟨"ns", [3], [⟨[4], [0]⟩], 1, []⟩).1 =
      .ok BadID
    ∧ (MustFirst (NewSearch (.contains [3]))
        ⟨"ns", [3], [⟨[4], [0]⟩], 1, []⟩).1 = some BadID :=
  (c10_mustfirst_never_panics (NewSearch (.contains [3]))
    ⟨"ns", [3], [⟨[4], [0]⟩], 1, []⟩).2.1 (newSearch_reachable _ _ _)
    (by decide)

/-! ## Nonce replay protection (C2) -/

/-- Modelled from the spec: the per-persona nonce table of the
signature/nonce verifier — only the last accepted nonce per persona is
retained (spec 4.F, 9; the verifier implementation is not under the
source tree). -/
structure NonceTable where
  lastSeen : List (String × Nat)
deriving DecidableEq

def lastSeenNonce (t : NonceTable) (persona : String) : Option Nat :=
  (t.lastSeen.find? fun p => p.1 == persona).map Prod.snd

inductive VerifyError
  | namespaceMismatch
  | unknownPersona
  | staleNonce
  | badSignature
deriving DecidableEq

/-- The exit codes the callers marshal to the network layer (spec 6). -/
def verifyErrorCode : VerifyError → Nat
  | .namespaceMismatch => 401
  | .unknownPersona => 401
  | .staleNonce => 401
  | .badSignature => 401

/-- Modelled from the spec: steps 3 and 5 of the validation pipeline
(spec 4.F): `nonce > last_seen_nonce(persona_tag)` else `StaleNonce`
(reject if equal); on success atomically record
`last_seen_nonce(persona_tag) := nonce`. A persona with no recorded
nonce accepts any nonce. -/
def checkAndUpdateNonce (t : NonceTable) (persona : String) (nonce : Nat) :
    Except VerifyError NonceTable :=
  match lastSeenNonce t persona with
  | none => .ok ⟨(persona, nonce) :: t.lastSeen⟩
  | some last =>
    if nonce > last then
      .ok ⟨(persona, nonce) :: t.lastSeen.filter fun p => p.1 != persona⟩
    else .error .staleNonce

theorem lastSeen_after_ok {t : NonceTable} {persona : String} {nonce : Nat}
    {t2 : NonceTable} (h : checkAndUpdateNonce t persona nonce = .ok t2) :
    lastSeenNonce t2 persona = some nonce := by
  unfold checkAndUpdateNonce at h
  split at h
  · cases h
    simp [lastSeenNonce]
  · split at h
    · cases h
      simp [lastSeenNonce]
    · cases h

/-- **C2.** Strictly monotonic nonce replay protection: once a payload
with nonce `n` is accepted for a persona, the persona's last-seen nonce
is `n`; any later payload with nonce `m ≤ n` (equality included) is
rejected with `StaleNonce`, which marshals to HTTP code 401; any payload
with nonce `m > n` passes the nonce check, and accepting it updates the
persona's last-seen nonce to `m`. -/
theorem c2_nonce_strictly_monotonic (t : NonceTable) (persona : String)
    (nonce : Nat) (t2 : NonceTable)
    (haccept : checkAndUpdateNonce t persona nonce = .ok t2) :
    lastSeenNonce t2 persona = some nonce
    ∧ (∀ m, m ≤ nonce →
        checkAndUpdateNonce t2 persona m = .error .staleNonce)
    ∧ verifyErrorCode .staleNonce = 401
    ∧ (∀ m, nonce < m → ∃ t3,
        checkAndUpdateNonce t2 persona m = .ok t3
        ∧ lastSeenNonce t3 persona = some m) := by
  have hlast := lastSeen_after_ok haccept
  refine ⟨hlast, ?_, rfl, ?_⟩
  · intro m hm
    simp only [checkAndUpdateNonce, hlast]
    rw [if_neg (by omega)]
  · intro m hm
    refine ⟨⟨(persona, m) :: t2.lastSeen.filter fun p => p.1 != persona⟩, ?_, ?_⟩
    · simp only [checkAndUpdateNonce, hlast]
      rw [if_pos hm]
    · simp [lastSeenNonce]

/-- Witness for C2 at the test's concrete scenario: accept nonce 100;
replaying 100 and submitting 50 are rejected with `StaleNonce` (code
401); 101 is accepted and recorded. -/
theorem c2_nonce_witness :
    ∃ t3, lastSeenNonce ⟨[("some_dude", 100)]⟩ "some_dude" = some 100
    ∧ checkAndUpdateNonce ⟨[("some_dude", 100)]⟩ "some_dude" 100 =
        .error .staleNonce
    ∧ checkAndUpdateNonce ⟨[("some_dude", 100)]⟩ "some_dude" 50 =
        .error .staleNonce
    ∧ checkAndUpdateNonce ⟨[("some_dude", 100)]⟩ "some_dude" 101 = .ok t3
    ∧ lastSeenNonce t3 "some_dude" = some 101 := by
  have h := c2_nonce_strictly_monotonic ⟨[]⟩ "some_dude" 100
    ⟨[("some_dude", 100)]⟩ rfl
  obtain ⟨t3, h101, hlast⟩ := h.2.2.2 101 (by decide)
  exact ⟨t3, h.1, h.2.1 100 (by decide), h.2.1 50 (by decide), h101, hlast⟩

/-! ## Persona registry and tick visibility (C3) -/

inductive PersonaStatus
  | assigned
  | unknown
  | available
deriving DecidableEq

/-- Modelled from the spec: the persona registry plus the slice of the
tick loop that processes `CreatePersona` messages (spec 4.G, 4.H; the
server and persona implementation files are not under the source tree).
`personas` maps a tag to its signer address and the tick whose pass
committed it; `pending` is the queue of accepted but not yet processed
`CreatePersona` messages. -/
structure PersonaState where
  currentTick : Int
  personas : List (String × String × Int)
  pending : List (String × String)
deriving DecidableEq

def personaRecord (st : PersonaState) (tag : String) :
    Option (String × Int) :=
  (st.personas.find? fun p => p.1 == tag).map Prod.snd

/-- Modelled from the spec: `query_persona_signer(persona_tag, tick)`
(spec 4.G): `assigned` when the persona is committed and
`tick ≥ committed_at_tick`; `unknown` when the tag exists with
`tick < committed_at_tick`, and also for an unrecorded tag at
`tick ≥ current_tick` (a pending claim could exist); `available` when
the tag is not recorded and `tick < current_tick`. -/
def queryPersonaSigner (st : PersonaState) (tag : String) (tick : Int) :
    PersonaStatus × Option String :=
  match personaRecord st tag with
  | some r => if r.2 ≤ tick then (.assigned, some r.1) else (.unknown, none)
  | none =>
    if tick < st.currentTick then (.available, none) else (.unknown, none)

/-- Modelled from the spec: an accepted `CreatePersona` joins the
pending queue; the enqueue response reports the current tick — the tick
whose pass will process the message. -/
def submitCreatePersona (st : PersonaState) (tag signer : String) :
    Int × PersonaState :=
  (st.currentTick, { st with pending := st.pending ++ [(tag, signer)] })

/-- Process the pending `CreatePersona` messages in order: the first
claim of an unclaimed tag records it with the processing tick as its
committed tick; duplicates are ignored (spec 4.G). -/
def applyCreates (tick : Int) :
    List (String × String × Int) → List (String × String) →
    List (String × String × Int)
  | ps, [] => ps
  | ps, (tag, signer) :: rest =>
    if (ps.find? fun p => p.1 == tag).isSome then applyCreates tick ps rest
    else applyCreates tick (ps ++ [(tag, signer, tick)]) rest

/-- Modelled from the spec: one tick — `CreatePersona` outcomes apply at
the end of the tick's system phase, then the commit increments the tick
counter (spec 4.H phases 3 and 4).  `committed_at_tick` is the tick
whose pass processed the message, matching spec scenario 3: a query at
the submission tick reports `assigned` once that tick has committed. -/
def personaTick (st : PersonaState) : PersonaState :=
  { currentTick := st.currentTick + 1
    personas := applyCreates st.currentTick st.personas st.pending
    pending := [] }

theorem applyCreates_append (tick : Int) (ps : List (String × String × Int))
    (l1 l2 : List (String × String)) :
    applyCreates tick ps (l1 ++ l2) =
      applyCreates tick (applyCreates tick ps l1) l2 := by
  induction l1 generalizing ps with
  | nil => rfl
  | cons pr rest ih =>
    obtain ⟨tag, signer⟩ := pr
    simp only [List.cons_append, applyCreates]
    by_cases hmem : (ps.find? fun p => p.1 == tag).isSome
    · rw [if_pos hmem, if_pos hmem]
      exact ih _
    · rw [if_neg hmem, if_neg hmem]
      exact ih _

theorem find?_append_none {α : Type} {p : α → Bool} {l1 : List α}
    (l2 : List α) (h : l1.find? p = none) :
    (l1 ++ l2).find? p = l2.find? p := by
  induction l1 with
  | nil => rfl
  | cons a rest ih =>
    cases hp : p a with
    | false =>
      rw [List.find?_cons_of_neg _ (by simp [hp])] at h
      rw [List.cons_append, List.find?_cons_of_neg _ (by simp [hp])]
      exact ih h
    | true =>
      rw [List.find?_cons_of_pos _ hp] at h
      cases h

theorem applyCreates_untouched (tick : Int) (tag : String)
    (ps : List (String × String × Int)) (l : List (String × String))
    (hl : ∀ pr ∈ l, pr.1 ≠ tag) :
    (applyCreates tick ps l).find? (fun p => p.1 == tag) =
      ps.find? fun p => p.1 == tag := by
  induction l generalizing ps with
  | nil => rfl
  | cons pr rest ih =>
    obtain ⟨tg, sg⟩ := pr
    have htg : tg ≠ tag := hl (tg, sg) (List.mem_cons_self _ _)
    simp only [applyCreates]
    by_cases hmem : (ps.find? fun p => p.1 == tg).isSome
    · rw [if_pos hmem]
      exact ih _ fun q hq => hl q (List.mem_cons_of_mem _ hq)
    · rw [if_neg hmem]
      rw [ih _ fun q hq => hl q (List.mem_cons_of_mem _ hq)]
      by_cases hfind : (ps.find? fun p => p.1 == tag) = none
      · rw [find?_append_none _ hfind, hfind]
        simp [htg]
      · obtain ⟨r, hr⟩ := Option.ne_none_iff_exists'.mp hfind
        rw [hr]
        rw [List.find?_append, hr]
        rfl

/-- **C3.** Persona visibility: after `CreatePersona` for an unclaimed
tag is accepted at tick `T`, `query_persona_signer(tag, T)` returns
`unknown`; after one further tick commits, the same query returns
`assigned` with the signer given at creation; and a tag that was never
recorded queried at a tick strictly below the current tick returns
`available`. -/
theorem c3_persona_visibility (st : PersonaState) (tag signer : String)
    (hfree : personaRecord st tag = none)
    (hnp : ∀ pr ∈ st.pending, pr.1 ≠ tag) :
    queryPersonaSigner (submitCreatePersona st tag signer).2 tag
        (submitCreatePersona st tag signer).1 = (.unknown, none)
    ∧ queryPersonaSigner (personaTick (submitCreatePersona st tag signer).2)
        tag (submitCreatePersona st tag signer).1 = (.assigned, some signer)
    ∧ (∀ tag2 tick, personaRecord st tag2 = none → tick < st.currentTick →
        queryPersonaSigner st tag2 tick = (.available, none)) := by
  refine ⟨?_, ?_, ?_⟩
  · have hrec : personaRecord (submitCreatePersona st tag signer).2 tag =
        none := hfree
    simp only [queryPersonaSigner, submitCreatePersona] at hrec ⊢
    rw [hrec, if_neg (by omega)]
  · have hfind : (applyCreates st.currentTick st.personas
        (st.pending ++ [(tag, signer)])).find? (fun p => p.1 == tag) =
          some (tag, signer, st.currentTick) := by
      rw [applyCreates_append]
      have huntouched := applyCreates_untouched st.currentTick tag
        st.personas st.pending hnp
      have hnone : (applyCreates st.currentTick st.personas
          st.pending).find? (fun p => p.1 == tag) = none := by
        rw [huntouched]
        simpa [personaRecord] using hfree
      simp only [applyCreates]
      rw [if_neg (by rw [hnone]; simp)]
      show ((applyCreates st.currentTick st.personas st.pending) ++
        [(tag, signer, st.currentTick)]).find? (fun p => p.1 == tag) =
          some (tag, signer, st.currentTick)
      rw [find?_append_none _ hnone]
      simp [List.find?_cons]
    simp only [queryPersonaSigner, submitCreatePersona]
    have hrec : personaRecord
        (personaTick
          { currentTick := st.currentTick, personas := st.personas,
            pending := st.pending ++ [(tag, signer)] }) tag =
          some (signer, st.currentTick) := by
      simp only [personaRecord, personaTick, hfind, Option.map_some']
    rw [hrec]
    simp
  · intro tag2 tick hrec htick
    simp only [queryPersonaSigner, hrec]
    rw [if_pos htick]

/-- Witness for C3 at the test's concrete scenario: `CoolMage` is
claimed at tick 5, invisible at the submission tick, assigned after one
tick, and `some_other_persona_tag` is available at tick -100. -/
theorem c3_persona_witness :
    queryPersonaSigner
        (submitCreatePersona ⟨5, [], []⟩ "CoolMage" "0xaddr").2 "CoolMage"
        (submitCreatePersona ⟨5, [], []⟩ "CoolMage" "0xaddr").1 =
      (.unknown, none)
    ∧ queryPersonaSigner
        (personaTick (submitCreatePersona ⟨5, [], []⟩ "CoolMage" "0xaddr").2)
        "CoolMage"
        (submitCreatePersona ⟨5, [], []⟩ "CoolMage" "0xaddr").1 =
      (.assigned, some "0xaddr")
    ∧ queryPersonaSigner (⟨5, [], []⟩ : PersonaState)
        "some_other_persona_tag" (-100) = (.available, none) := by
  have h := c3_persona_visibility ⟨5, [], []⟩ "CoolMage" "0xaddr" rfl
    (by intro pr hpr; cases hpr)
  exact ⟨h.1, h.2.1, h.2.2 "some_other_persona_tag" (-100) rfl (by decide)⟩

/-! ## EVM receipt consumption (C8) -/

/-- The EVM transaction receipt of `ConsumeEVMMsgResult` (fields
`ABIResult`, `EVMTxHash`, `Errs` of the engine's receipt). -/
structure EVMReceipt where
  evmTxHash : String
  abiResult : List Nat
  errs : List String
deriving DecidableEq

/-- Modelled from the spec: the slice of the engine the EVM-receipt
claim exercises — the pending queue of EVM-tagged messages and the
consumable receipt store keyed by external transaction hash (spec 4.E,
4.I; the engine implementation is not under the source tree). -/
structure EngineState where
  queue : List (String × Nat)
  receipts : List EVMReceipt
deriving DecidableEq

/-- Modelled from the spec: ABI-encoding of a system result — an opaque
non-empty byte string. -/
def abiEncode (v : Nat) : List Nat := [v]

/-- `AddEVMTransaction`: enqueue a message tagged with an external EVM
transaction hash. -/
def AddEVMTransaction (st : EngineState) (h : String) (x : Nat) :
    EngineState :=
  { st with queue := st.queue ++ [(h, x)] }

/-- Modelled from the spec: one tick — the system consumes every queued
message in order; a returned result is ABI-encoded into the receipt with
an empty error list, a returned error yields empty result bytes and a
one-element error list; the tick still commits (spec 4.H, 7). -/
def engineTick (sys : Nat → Except String Nat) (st : EngineState) :
    EngineState :=
  { queue := []
    receipts := st.receipts ++ st.queue.map fun m =>
      match sys m.2 with
      | .ok v => ⟨m.1, abiEncode v, []⟩
      | .error e => ⟨m.1, [], [e]⟩ }

/-- `ConsumeEVMMsgResult`: return and remove the receipt stored under
the external transaction hash (at-most-once; spec 4.I `consume`). -/
def ConsumeEVMMsgResult (st : EngineState) (h : String) :
    Option EVMReceipt × EngineState :=
  match st.receipts.find? fun r => r.evmTxHash == h with
  | none => (none, st)
  | some r =>
    (some r,
     { st with receipts := st.receipts.filter fun r2 => r2.evmTxHash != h })

theorem find?_filter_ne (l : List EVMReceipt) (h : String) :
    (l.filter fun r2 => r2.evmTxHash != h).find?
      (fun r => r.evmTxHash == h) = none := by
  rw [List.find?_eq_none]
  intro r hr
  have := List.of_mem_filter hr
  simpa using this

/-- The receipt one tick produces for the message with input `x`. -/
def tickReceipt (sys : Nat → Except String Nat) (h : String) (x : Nat) :
    EVMReceipt :=
  match sys x with
  | .ok v => ⟨h, abiEncode v, []⟩
  | .error e => ⟨h, [], [e]⟩

/-- Consuming right after a tick that processed the only message tagged
`h` returns that message's receipt, and the post-consumption state holds
no receipt and no queued message tagged `h`. -/
theorem consume_fresh (st : EngineState) (h : String) (x : Nat)
    (sys : Nat → Except String Nat)
    (hr : ∀ r ∈ st.receipts, r.evmTxHash ≠ h)
    (hq : ∀ m ∈ st.queue, m.1 ≠ h) :
    (ConsumeEVMMsgResult (engineTick sys (AddEVMTransaction st h x)) h).1 =
      some (tickReceipt sys h x)
    ∧ (∀ r ∈ (ConsumeEVMMsgResult
        (engineTick sys (AddEVMTransaction st h x)) h).2.receipts,
        r.evmTxHash ≠ h)
    ∧ (ConsumeEVMMsgResult
        (engineTick sys (AddEVMTransaction st h x)) h).2.queue = [] := by
  have hticked : (engineTick sys (AddEVMTransaction st h x)).receipts =
      (st.receipts ++ st.queue.map fun m =>
        match sys m.2 with
        | .ok v => (⟨m.1, abiEncode v, []⟩ : EVMReceipt)
        | .error e => ⟨m.1, [], [e]⟩) ++ [tickReceipt sys h x] := by
    simp [engineTick, AddEVMTransaction, tickReceipt]
  have hprefix_none : ((st.receipts ++ st.queue.map fun (m : String × Nat) =>
      match sys m.2 with
      | .ok v => (⟨m.1, abiEncode v, []⟩ : EVMReceipt)
      | .error e => ⟨m.1, [], [e]⟩).find?
        fun (r : EVMReceipt) => r.evmTxHash == h) = none := by
    rw [List.find?_eq_none]
    intro r hmem
    rcases List.mem_append.mp hmem with hmem1 | hmem2
    · simpa using hr r hmem1
    · obtain ⟨m, hm, hrm⟩ := List.mem_map.mp hmem2
      subst hrm
      have hm1 : m.1 ≠ h := hq m hm
      cases hsys : sys m.2 <;> simp [hsys, hm1]
  have hfind : ((engineTick sys (AddEVMTransaction st h x)).receipts.find?
      fun r => r.evmTxHash == h) = some (tickReceipt sys h x) := by
    rw [hticked, find?_append_none _ hprefix_none]
    have : (tickReceipt sys h x).evmTxHash = h := by
      unfold tickReceipt
      cases sys x <;> rfl
    simp [List.find?_cons, this]
  refine ⟨?_, ?_, ?_⟩
  · simp only [ConsumeEVMMsgResult, hfind]
  · intro r hmem
    simp only [ConsumeEVMMsgResult, hfind] at hmem
    have := List.of_mem_filter hmem
    simpa using this
  · simp only [ConsumeEVMMsgResult, hfind]
    simp [engineTick]

/-- **C8.** At-most-once EVM receipt consumption: after a tick processes
the message enqueued with external hash `h` (no other queued message or
stored receipt carrying `h`), the first `ConsumeEVMMsgResult h` returns
that message's receipt — non-empty ABI result bytes and no errors when
the system returned a result, empty result bytes and exactly one error
when it returned an error — and every further call returns nothing,
until a new message with hash `h` is processed, after which consumption
succeeds once again. -/
theorem c8_evm_receipt_consume_once (st : EngineState) (h : String)
    (x : Nat) (sys : Nat → Except String Nat)
    (hr : ∀ r ∈ st.receipts, r.evmTxHash ≠ h)
    (hq : ∀ m ∈ st.queue, m.1 ≠ h) :
    (∀ v, sys x = .ok v →
      (ConsumeEVMMsgResult (engineTick sys (AddEVMTransaction st h x)) h).1 =
        some ⟨h, abiEncode v, []⟩ ∧ (abiEncode v).length > 0)
    ∧ (∀ e, sys x = .error e →
        (ConsumeEVMMsgResult (engineTick sys (AddEVMTransaction st h x)) h).1 =
          some ⟨h, [], [e]⟩)
    ∧ (ConsumeEVMMsgResult
        (ConsumeEVMMsgResult (engineTick sys (AddEVMTransaction st h x)) h).2
        h).1 = none
    ∧ (∀ x2 sys2,
        (ConsumeEVMMsgResult
          (engineTick sys2 (AddEVMTransaction
            (ConsumeEVMMsgResult
              (engineTick sys (AddEVMTransaction st h x)) h).2 h x2)) h).1 =
          some (tickReceipt sys2 h x2)) := by
  obtain ⟨hfirst, hclean, hqueue2⟩ := consume_fresh st h x sys hr hq
  refine ⟨?_, ?_, ?_, ?_⟩
  · intro v hv
    rw [hfirst]
    unfold tickReceipt
    rw [hv]
    exact ⟨rfl, by simp [abiEncode]⟩
  · intro e he
    rw [hfirst]
    unfold tickReceipt
    rw [he]
  · have hnone : ((ConsumeEVMMsgResult
        (engineTick sys (AddEVMTransaction st h x)) h).2.receipts.find?
        fun r => r.evmTxHash == h) = none := by
      rw [List.find?_eq_none]
      intro r hmem
      simpa using hclean r hmem
    have hgen : ∀ st2 : EngineState,
        (st2.receipts.find? fun r => r.evmTxHash == h) = none →
        (ConsumeEVMMsgResult st2 h).1 = none := by
      intro st2 hn
      simp only [ConsumeEVMMsgResult, hn]
    exact hgen _ hnone
  · intro x2 sys2
    exact (consume_fresh _ h x2 sys2 hclean
      (by rw [hqueue2]; intro m hm; cases hm)).1

/-- Witness for C8 at the test's concrete scenario: hash `0xFooBar`,
a system returning a result first, then an error on re-enqueue. -/
theorem c8_evm_receipt_witness :
    (ConsumeEVMMsgResult
      (engineTick (fun v => .ok (v + 1))
        (AddEVMTransaction ⟨[], []⟩ "0xFooBar" 32)) "0xFooBar").1 =
      some ⟨"0xFooBar", abiEncode 33, []⟩
    ∧ (ConsumeEVMMsgResult
        (ConsumeEVMMsgResult
          (engineTick (fun v => .ok (v + 1))
            (AddEVMTransaction ⟨[], []⟩ "0xFooBar" 32)) "0xFooBar").2
        "0xFooBar").1 = none
    ∧ (ConsumeEVMMsgResult
        (engineTick (fun _ => .error "omg error")
          (AddEVMTransaction
            (ConsumeEVMMsgResult
              (engineTick (fun v => .ok (v + 1))
                (AddEVMTransaction ⟨[], []⟩ "0xFooBar" 32)) "0xFooBar").2
            "0xFooBar" 32)) "0xFooBar").1 =
      some (tickReceipt (fun _ => .error "omg error") "0xFooBar" 32) := by
  have h := c8_evm_receipt_consume_once ⟨[], []⟩ "0xFooBar" 32
    (fun v => .ok (v + 1)) (by intro r hr; cases hr)
    (by intro m hm; cases hm)
  exact ⟨(h.1 33 rfl).1, h.2.2.1, h.2.2.2 32 fun _ => .error "omg error"⟩

/-! ## CreateMany (C7) -/

/-- The allocator invariant: every entity row of the world is below the
next entity ID (IDs are dense, monotonically assigned, never reused). -/
def EntityIDsBounded (w : World) : Prop :=
  ∀ a ∈ w.archetypes, ∀ e ∈ a.entities, e < w.nextEntityID

theorem findArchIdx_spec {cs : List ComponentID} :
    ∀ {l : List Archetype} {i : Nat}, findArchIdx cs l = some i →
      i < l.length ∧ sameSet (l.getD i default).comps cs = true := by
  intro l
  induction l with
  | nil => intro i h; cases h
  | cons a rest ih =>
    intro i h
    simp only [findArchIdx] at h
    by_cases hs : sameSet a.comps cs
    · rw [if_pos hs] at h
      cases h
      exact ⟨Nat.succ_pos _, hs⟩
    · rw [if_neg hs] at h
      cases hrec : findArchIdx cs rest with
      | none => rw [hrec] at h; cases h
      | some j =>
        rw [hrec] at h
        cases h
        obtain ⟨hlt, hset⟩ := ih hrec
        exact ⟨by simpa using Nat.succ_lt_succ hlt, by simpa using hset⟩

theorem modifyAt_length {α : Type} (l : List α) (i : Nat) (f : α → α) :
    (modifyAt l i f).length = l.length := by
  induction l generalizing i with
  | nil => rfl
  | cons a rest ih =>
    cases i with
    | zero => rfl
    | succ j => simpa [modifyAt] using ih j

theorem modifyAt_getD {α : Type} [Inhabited α] :
    ∀ (l : List α) (i : Nat) (f : α → α), i < l.length →
      (modifyAt l i f).getD i default = f (l.getD i default) := by
  intro l
  induction l with
  | nil => intro i f h; cases h
  | cons a rest ih =>
    intro i f h
    cases i with
    | zero => rfl
    | succ j =>
      simp only [modifyAt, List.getD_cons_succ]
      exact ih j f (by simpa using h)

theorem modifyAt_getD_ne {α : Type} [Inhabited α] :
    ∀ (l : List α) (i j : Nat) (f : α → α), j ≠ i →
      (modifyAt l i f).getD j default = l.getD j default := by
  intro l
  induction l with
  | nil => intro i j f _; simp [modifyAt]
  | cons a rest ih =>
    intro i j f hne
    cases i with
    | zero =>
      cases j with
      | zero => exact absurd rfl hne
      | succ j2 => rfl
    | succ i2 =>
      cases j with
      | zero => rfl
      | succ j2 =>
        simp only [modifyAt, List.getD_cons_succ]
        exact ih i2 j2 f (by omega)

/-- Archetype-row bound over a list of archetypes. -/
def rowsBounded (l : List Archetype) (n : Nat) : Prop :=
  ∀ a ∈ l, ∀ e ∈ a.entities, e < n

theorem getArch_spec (w : World) (cs : List ComponentID) :
    (getArchIDForComponents w cs).2.ns = w.ns
    ∧ (getArchIDForComponents w cs).2.registered = w.registered
    ∧ (getArchIDForComponents w cs).2.values = w.values
    ∧ (getArchIDForComponents w cs).2.nextEntityID = w.nextEntityID
    ∧ (getArchIDForComponents w cs).1 <
        (getArchIDForComponents w cs).2.archetypes.length
    ∧ sameSet ((getArchIDForComponents w cs).2.archetypes.getD
        (getArchIDForComponents w cs).1 default).comps cs = true
    ∧ (∀ n, rowsBounded w.archetypes n →
        rowsBounded (getArchIDForComponents w cs).2.archetypes n) := by
  unfold getArchIDForComponents
  cases hfind : findArchIdx cs w.archetypes with
  | some i =>
    obtain ⟨hlt, hset⟩ := findArchIdx_spec hfind
    exact ⟨rfl, rfl, rfl, rfl, hlt, hset, fun n hb => hb⟩
  | none =>
    refine ⟨rfl, rfl, rfl, rfl, by simp, ?_, ?_⟩
    · have : (w.archetypes ++ [(⟨cs, []⟩ : Archetype)]).getD
          w.archetypes.length default = ⟨cs, []⟩ := by
        rw [List.getD_eq_getElem?_getD, List.getElem?_append_right
          (Nat.le_refl _)]
        simp
      simp only [this]
      rw [sameSet_iff]
      intro c
      exact Iff.rfl
    · intro n hb a ha e he
      rcases List.mem_append.mp ha with h1 | h2
      · exact hb a h1 e he
      · simp only [List.mem_singleton] at h2
        subst h2
        cases he

theorem find?_unique_mem :
    ∀ (l : List Archetype) (e : EntityID) (i : Nat), i < l.length →
      (l.getD i default).entities.contains e = true →
      (∀ j, j < l.length → j ≠ i →
        (l.getD j default).entities.contains e = false) →
      l.find? (fun a => a.entities.contains e) = some (l.getD i default) := by
  intro l
  induction l with
  | nil => intro e i h; cases h
  | cons a rest ih =>
    intro e i hi hmem hothers
    cases i with
    | zero =>
      rw [List.find?_cons_of_pos _ (by simpa using hmem)]
      rfl
    | succ j =>
      have ha : a.entities.contains e = false := by
        have := hothers 0 (Nat.succ_pos _) (by omega)
        simpa using this
      rw [List.find?_cons_of_neg _ (by simpa using ha)]
      simp only [List.getD_cons_succ] at hmem ⊢
      refine ih e j (by simpa using hi) hmem ?_
      intro j2 hj2 hne
      have := hothers (j2 + 1) (by simpa using Nat.succ_lt_succ hj2)
        (by omega)
      simpa using this

theorem lookup_storeValue (vs : List ((EntityID × ComponentID) × Value))
    (k : EntityID × ComponentID) (v : Value) :
    lookupValue (storeValue vs k v) k = some v := by
  simp [lookupValue, storeValue, List.find?_cons]

theorem find?_filter_of_imp {α : Type} (p q : α → Bool) (l : List α)
    (himp : ∀ x, p x = true → q x = true) :
    (l.filter q).find? p = l.find? p := by
  induction l with
  | nil => rfl
  | cons a rest ih =>
    by_cases hq : q a = true
    · rw [List.filter_cons_of_pos hq]
      by_cases hpa : p a = true
      · rw [List.find?_cons_of_pos _ hpa, List.find?_cons_of_pos _ hpa]
      · rw [List.find?_cons_of_neg _ hpa, List.find?_cons_of_neg _ hpa]
        exact ih
    · have hpa : ¬ p a = true := fun hpa => hq (himp a hpa)
      rw [List.filter_cons_of_neg (by simpa using hq),
        List.find?_cons_of_neg _ hpa]
      exact ih

theorem lookup_filter_ne (vs : List ((EntityID × ComponentID) × Value))
    (k k' : EntityID × ComponentID) (h : k' ≠ k) :
    lookupValue (vs.filter fun p => p.1 != k) k' = lookupValue vs k' := by
  unfold lookupValue
  rw [find?_filter_of_imp]
  intro x hx
  simp only [beq_iff_eq] at hx
  simp [hx, h]

theorem lookup_storeValue_ne (vs : List ((EntityID × ComponentID) × Value))
    (k : EntityID × ComponentID) (v : Value)
    (k' : EntityID × ComponentID) (h : k' ≠ k) :
    lookupValue (storeValue vs k v) k' = lookupValue vs k' := by
  unfold storeValue
  have hstep : lookupValue ((k, v) :: vs.filter fun p => p.1 != k) k' =
      lookupValue (vs.filter fun p => p.1 != k) k' := by
    unfold lookupValue
    rw [List.find?_cons_of_neg _ (by simpa using Ne.symm h)]
  rw [hstep]
  exact lookup_filter_ne vs k k' h

theorem componentsOf_congr {w1 w2 : World}
    (h : w1.archetypes = w2.archetypes) (e : EntityID) :
    componentsOf w1 e = componentsOf w2 e := by
  simp [componentsOf, h]

/-- Full specification of the inner `CreateMany` loop: setting every
listed component value on one entity succeeds when each component is on
the entity's archetype, changes no other key, and records each value. -/
theorem setComps_ok :
    ∀ (comps : List CompVal) (w : World) (id : EntityID)
      (cs : List ComponentID),
      componentsOf w id = some cs →
      (∀ cv ∈ comps, cs.contains cv.1 = true) →
      ∃ w', setComps w id comps = .ok w'
        ∧ w'.archetypes = w.archetypes
        ∧ w'.registered = w.registered
        ∧ w'.ns = w.ns
        ∧ w'.nextEntityID = w.nextEntityID
        ∧ (∀ k : EntityID × ComponentID, k.1 ≠ id →
            lookupValue w'.values k = lookupValue w.values k)
        ∧ (∀ c, c ∉ comps.map Prod.fst →
            lookupValue w'.values (id, c) = lookupValue w.values (id, c))
        ∧ ((comps.map Prod.fst).Nodup →
            ∀ cv ∈ comps, lookupValue w'.values (id, cv.1) = some cv.2) := by
  intro comps
  induction comps with
  | nil =>
    intro w id cs hcs hall
    exact ⟨w, rfl, rfl, rfl, rfl, rfl, fun _ _ => rfl, fun _ _ => rfl,
      fun _ cv hcv => absurd hcv (List.not_mem_nil cv)⟩
  | cons cv0 rest ih =>
    intro w id cs hcs hall
    obtain ⟨c, v⟩ := cv0
    have hcon : cs.contains c = true := hall (c, v) (List.mem_cons_self _ _)
    have hset : setComponentForEntity w id c v =
        .ok { w with values := storeValue w.values (id, c) v } := by
      simp only [setComponentForEntity, hcs]
      rw [if_pos hcon]
    have hcs1 : componentsOf
        { w with values := storeValue w.values (id, c) v } id = some cs := by
      rw [componentsOf_congr rfl id]
      exact hcs
    obtain ⟨w2, hrun, harch, hregi, hns, hnext, hother, hcomp, hvals⟩ :=
      ih { w with values := storeValue w.values (id, c) v } id cs hcs1
        fun cv hcv => hall cv (List.mem_cons_of_mem _ hcv)
    refine ⟨w2, ?_, harch, hregi, hns, hnext, ?_, ?_, ?_⟩
    · simp only [setComps, hset]
      exact hrun
    · intro k hk
      rw [hother k hk]
      exact lookup_storeValue_ne w.values (id, c) v k
        fun hkk => hk (by rw [hkk])
    · intro c2 hc2
      have hc2c : c2 ≠ c := fun hcc =>
        hc2 (by rw [hcc]; exact List.mem_cons_self _ _)
      have hc2rest : c2 ∉ rest.map Prod.fst := fun hmem =>
        hc2 (List.mem_cons_of_mem _ hmem)
      rw [hcomp c2 hc2rest]
      exact lookup_storeValue_ne w.values (id, c) v (id, c2)
        (by simp [hc2c])
    · intro hnd cv hcv
      have hcnot : c ∉ rest.map Prod.fst := by
        have := hnd
        simp only [List.map_cons, List.nodup_cons] at this
        exact this.1
      have hndrest : (rest.map Prod.fst).Nodup := by
        have := hnd
        simp only [List.map_cons, List.nodup_cons] at this
        exact this.2
      rcases List.mem_cons.mp hcv with hcv0 | hcvrest
      · subst hcv0
        rw [hcomp c hcnot]
        exact lookup_storeValue w.values (id, c) v
      · exact hvals hndrest cv hcvrest

/-- Full specification of the outer `CreateMany` loop over the new
entity IDs. -/
theorem setCompsAll_ok :
    ∀ (ids : List EntityID) (w : World) (comps : List CompVal),
      (∀ id ∈ ids, ∃ cs, componentsOf w id = some cs ∧
        ∀ cv ∈ comps, cs.contains cv.1 = true) →
      ∃ w', setCompsAll w comps ids = .ok w'
        ∧ w'.archetypes = w.archetypes
        ∧ w'.registered = w.registered
        ∧ w'.ns = w.ns
        ∧ w'.nextEntityID = w.nextEntityID
        ∧ (∀ k : EntityID × ComponentID, k.1 ∉ ids →
            lookupValue w'.values k = lookupValue w.values k)
        ∧ (ids.Nodup → (comps.map Prod.fst).Nodup →
            ∀ id ∈ ids, ∀ cv ∈ comps,
              lookupValue w'.values (id, cv.1) = some cv.2) := by
  intro ids
  induction ids with
  | nil =>
    intro w comps _
    exact ⟨w, rfl, rfl, rfl, rfl, rfl, fun _ _ => rfl,
      fun _ _ id hid => absurd hid (List.not_mem_nil id)⟩
  | cons id0 rest ih =>
    intro w comps hcs
    obtain ⟨cs0, hcs0, hall0⟩ := hcs id0 (List.mem_cons_self _ _)
    obtain ⟨w1, hrun1, harch1, hreg1, hns1, hnext1, hother1, hcomp1, hvals1⟩ :=
      setComps_ok comps w id0 cs0 hcs0 hall0
    have hcs2 : ∀ id ∈ rest, ∃ cs, componentsOf w1 id = some cs ∧
        ∀ cv ∈ comps, cs.contains cv.1 = true := by
      intro id hid
      obtain ⟨cs, hcsid, hallid⟩ := hcs id (List.mem_cons_of_mem _ hid)
      exact ⟨cs, by rw [componentsOf_congr harch1 id]; exact hcsid, hallid⟩
    obtain ⟨w2, hrun2, harch2, hreg2, hns2, hnext2, hother2, hvals2⟩ :=
      ih w1 comps hcs2
    refine ⟨w2, ?_, harch2.trans harch1, hreg2.trans hreg1,
      hns2.trans hns1, hnext2.trans hnext1, ?_, ?_⟩
    · simp only [setCompsAll, hrun1]
      exact hrun2
    · intro k hk
      have hk0 : k.1 ≠ id0 := by
        intro hh
        exact hk (by rw [hh]; exact List.mem_cons_self _ _)
      have hkrest : k.1 ∉ rest := fun hh => hk (List.mem_cons_of_mem _ hh)
      rw [hother2 k hkrest]
      exact hother1 k hk0
    · intro hndids hndcomps id hid cv hcv
      have hid0rest : id0 ∉ rest := (List.nodup_cons.mp hndids).1
      have hndrest : rest.Nodup := (List.nodup_cons.mp hndids).2
      rcases List.mem_cons.mp hid with hid0 | hidrest
      · subst hid0
        rw [hother2 (id, cv.1) (by simpa using hid0rest)]
        exact hvals1 hndcomps cv hcv
      · exact hvals2 hndrest hndcomps id hidrest cv hcv

/-- After `CreateManyEntities`, every new entity ID is located in the
archetype of the requested component set. -/
theorem componentsOf_createManyEntities (w : World) (num : Nat)
    (cs : List ComponentID) (hwf : EntityIDsBounded w) (id : EntityID)
    (hid : id ∈ (createManyEntities w num cs).1) :
    componentsOf (createManyEntities w num cs).2 id =
      some ((getArchIDForComponents w cs).2.archetypes.getD
        (getArchIDForComponents w cs).1 default).comps := by
  obtain ⟨-, -, -, -, haidlt, -, hbound⟩ := getArch_spec w cs
  have hid2 : id ∈ (List.range num).map fun i => w.nextEntityID + i := hid
  have hnext : w.nextEntityID ≤ id := by
    simp only [List.mem_map, List.mem_range] at hid2
    obtain ⟨k, -, hk⟩ := hid2
    have hk2 : w.nextEntityID + k = id := hk
    omega
  have hrows : rowsBounded (getArchIDForComponents w cs).2.archetypes
      w.nextEntityID := hbound w.nextEntityID hwf
  have hfind := find?_unique_mem
    (modifyAt (getArchIDForComponents w cs).2.archetypes
      (getArchIDForComponents w cs).1
      (fun a => { a with entities := a.entities ++
        (List.range num).map fun i => w.nextEntityID + i })) id
    (getArchIDForComponents w cs).1
    (by rw [modifyAt_length]; exact haidlt)
    (by
      rw [modifyAt_getD _ _ _ haidlt]
      simpa using Or.inr hid2)
    (by
      intro j hj hne
      rw [modifyAt_length] at hj
      rw [modifyAt_getD_ne _ _ _ _ hne]
      by_contra hcon
      rw [Bool.not_eq_false] at hcon
      have hmem : id ∈ ((getArchIDForComponents w cs).2.archetypes.getD j
          default).entities := by simpa using hcon
      have hgd : (getArchIDForComponents w cs).2.archetypes.getD j default ∈
          (getArchIDForComponents w cs).2.archetypes := by
        rw [List.getD_eq_getElem _ _ hj]
        exact List.getElem_mem hj
      have hlt : id < w.nextEntityID := hrows _ hgd id hmem
      exact Nat.lt_irrefl id (Nat.lt_of_lt_of_le hlt hnext))
  show ((modifyAt (getArchIDForComponents w cs).2.archetypes
      (getArchIDForComponents w cs).1
      (fun a => { a with entities := a.entities ++
        (List.range num).map fun i => w.nextEntityID + i })).find?
      (fun a => a.entities.contains id)).map Archetype.comps = _
  rw [hfind, modifyAt_getD _ _ _ haidlt]
  rfl

/-- **C7.** For every `n ≥ 1` and every duplicate-free list of
registered components, `CreateMany` (on a writable context, in a world
whose rows respect the ID allocator) returns exactly `n` pairwise
distinct entity IDs, and each returned entity carries exactly the
component set of the list, every component reading back the initial
value passed in. -/
theorem c7_create_many_distinct_ids (ctx : WorldContext) (w : World)
    (n : Nat) (comps : List CompVal)
    (hro : ctx.readOnly = false) (_hn : 1 ≤ n)
    (hreg : (comps.all fun c => w.registered.contains c.1) = true)
    (hnd : (comps.map Prod.fst).Nodup)
    (hwf : EntityIDsBounded w) :
    ∃ ids w2, CreateMany ctx w n comps = .ok (ids, w2)
      ∧ ids.length = n
      ∧ ids.Nodup
      ∧ ∀ id ∈ ids, ∃ cs, componentsOf w2 id = some cs
          ∧ sameSet cs (comps.map Prod.fst) = true
          ∧ ∀ cv ∈ comps, GetComponent ctx w2 id cv.1 = .ok cv.2 := by
  obtain ⟨hns0, hreg0, hval0, hnext0, haidlt, hsame, hbound⟩ :=
    getArch_spec w (comps.map Prod.fst)
  have harchid : ∀ id ∈ (createManyEntities w n (comps.map Prod.fst)).1,
      componentsOf (createManyEntities w n (comps.map Prod.fst)).2 id =
        some ((getArchIDForComponents w (comps.map Prod.fst)).2.archetypes.getD
          (getArchIDForComponents w (comps.map Prod.fst)).1 default).comps :=
    fun id hid => componentsOf_createManyEntities w n _ hwf id hid
  have hsubset : ∀ cv ∈ comps,
      ((getArchIDForComponents w (comps.map Prod.fst)).2.archetypes.getD
        (getArchIDForComponents w (comps.map Prod.fst)).1
        default).comps.contains cv.1 = true := by
    intro cv hcv
    have hmem : cv.1 ∈ comps.map Prod.fst := List.mem_map_of_mem Prod.fst hcv
    have hiff := (sameSet_iff _ _).mp hsame cv.1
    simpa using hiff.mpr hmem
  obtain ⟨w3, hrun, harch3, hreg3, hns3, hnext3, hother3, hvals3⟩ :=
    setCompsAll_ok (createManyEntities w n (comps.map Prod.fst)).1
      (createManyEntities w n (comps.map Prod.fst)).2 comps
      (fun id hid => ⟨_, harchid id hid, hsubset⟩)
  have hidsnd : (createManyEntities w n (comps.map Prod.fst)).1.Nodup := by
    show ((List.range n).map fun i => w.nextEntityID + i).Nodup
    exact List.Nodup.map (fun a b hab => by omega) (List.nodup_range n)
  refine ⟨(createManyEntities w n (comps.map Prod.fst)).1, w3, ?_, ?_,
    hidsnd, ?_⟩
  · rw [CreateMany]
    rw [if_neg (by simp [hro])]
    rw [if_pos hreg]
    simp only [hrun]
  · show ((List.range n).map fun i => w.nextEntityID + i).length = n
    simp
  · intro id hid
    refine ⟨_, ?_, hsame, ?_⟩
    · rw [componentsOf_congr harch3 id]
      exact harchid id hid
    · intro cv hcv
      have hregcv : w.registered.contains cv.1 = true := by
        rw [List.all_eq_true] at hreg
        exact hreg cv hcv
      have hreg3w : w3.registered = w.registered := by
        rw [hreg3]
        show (getArchIDForComponents w (comps.map Prod.fst)).2.registered =
          w.registered
        exact hreg0
      have hcompsof : componentsOf w3 id =
          some ((getArchIDForComponents w (comps.map Prod.fst)).2.archetypes.getD
            (getArchIDForComponents w (comps.map Prod.fst)).1 default).comps := by
        rw [componentsOf_congr harch3 id]
        exact harchid id hid
      have hlookup : lookupValue w3.values (id, cv.1) = some cv.2 :=
        hvals3 hidsnd hnd id hid cv hcv
      rw [GetComponent, if_pos (by rw [hreg3w]; exact hregcv)]
      simp only [getComponentForEntity, hcompsof]
      rw [if_pos (hsubset cv hcv), hlookup]
      rfl

/-- Witness for C7: two entities created with components 0 and 1 holding
values 7 and 8. -/
theorem c7_create_many_witness :
    ∃ ids w2, CreateMany ⟨false⟩ (⟨"ns", [0, 1], [], 0, []⟩ : World) 2
        [(0, 7), (1, 8)] = .ok (ids, w2)
      ∧ ids.length = 2
      ∧ ids.Nodup
      ∧ ∀ id ∈ ids, ∃ cs, componentsOf w2 id = some cs
          ∧ sameSet cs ([(0, 7), (1, 8)].map Prod.fst) = true
          ∧ ∀ cv ∈ [((0 : ComponentID), (7 : Value)), (1, 8)],
              GetComponent ⟨false⟩ w2 id cv.1 = .ok cv.2 :=
  c7_create_many_distinct_ids ⟨false⟩ ⟨"ns", [0, 1], [], 0, []⟩ 2
    [(0, 7), (1, 8)] rfl (by decide) (by decide) (by decide)
    (by intro a ha; cases ha)

end WorldEngine
